import Mathlib

/-!
# A shallow embedding of `src/bitset.py` (class `BitSet`)

The Python class packs `n_bits` boolean values into a list of 32-bit words
(`__INT_SIZE = 32`, `__ALL_SET = (1 << 32) - 1`, `__ALL_CLEAR = 0`).

Modelling conventions:
* Python integers are `Nat` for the stored words (they are always non-negative
  here) and `Int` for bit positions, which may be negative (`-1` is the
  "all positions" sentinel, and other negative values reach Python's floor
  `divmod` and negative list indexing).
* Python `divmod(a, 32)` is floor division; for the positive divisor 32 this
  agrees with Euclidean division, so it is `(Int.ediv a 32, Int.emod a 32)`.
* Python list subscripts wrap negative indices by adding `len` and raise
  `IndexError` when still out of range: `pyIdx` resolves a subscript to
  `some` effective index or `none`.
* A Python method that can raise returns `Except PyError α`; a method that can
  both mutate `self` and raise returns `Except PyError α × BitSet`, the second
  component being the state of the object when the call returns **or raises**
  (the word array is never modified before a raise in this code, which is
  exactly what claim C8 asserts, so the error branches return the entry state).
* `ValueError("Bit position should not exceed BitSet capacity.")` is the
  spec's `OutOfRange` error; it is `PyError.valueError`.
-/

/-- The exceptions the translated Python code can raise.  `valueError` is the
`ValueError` the bound checks raise (the spec's `OutOfRange`); `indexError` is
a list subscript violation; `attributeError` is an access to an undefined
attribute. -/
inductive PyError where
  | valueError
  | indexError
  | attributeError
deriving DecidableEq, Repr

/-- `__ALL_SET = (1 << 32) - 1` (source line 35). -/
def ALL_SET : Nat := (1 <<< 32) - 1

/-- `__ALL_CLEAR = 0` (source line 36). -/
def ALL_CLEAR : Nat := 0

/-- Resolve a Python list subscript `i` on a list of length `len`:
a negative index has `len` added once; the access succeeds when the result
lies in `[0, len)`, otherwise the subscript raises `IndexError`. -/
def pyIdx (len : Nat) (i : Int) : Option Nat :=
  let j : Int := if i < 0 then i + len else i
  if 0 ≤ j ∧ j < (len : Int) then some j.toNat else none

/-- Python `divmod(a, b)` (floor division).  All call sites in the source use
the positive divisor `__INT_SIZE = 32`, where floor and Euclidean division
coincide, so `Int.ediv`/`Int.emod` are exact. -/
def pyDivmod (a b : Int) : Int × Int := (Int.ediv a b, Int.emod a b)

/-- Python `x & ~m` for a non-negative `x` and a non-negative mask `m`:
`~m` is the (conceptually infinite) complement, so the result keeps exactly
the bits of `x` outside `m`, i.e. it removes `x &&& m` from `x`, which on
`Nat` is `x ^^^ (x &&& m)`. -/
def pyAndNot (x m : Nat) : Nat := x ^^^ (x &&& m)

/-- The state of a `BitSet` object: the `n_bits` attribute (the capacity) and
the private `__bits` word list. -/
structure BitSet where
  n_bits : Nat
  bits : List Nat
deriving DecidableEq, Repr

namespace BitSet

/-- `__number_of_integers_needed(n_bits)` (source lines 43–53):
`int(ceil(n_bits / 32))`, which on naturals is `(n_bits + 31) / 32`. -/
def numberOfIntegersNeeded (n_bits : Nat) : Nat := (n_bits + 31) / 32

/-- `__init__(n_bits)` (source lines 38–41).  Line 41 calls
`self.__idx_of_idxs_needed(n_bits)`, but no method of that name exists
anywhere in the class (the helper actually defined is
`__number_of_integers_needed`), so every construction raises
`AttributeError` before `__bits` is assigned. -/
def init (n_bits : Nat) : Except PyError BitSet :=
  .error .attributeError

/-- The object state `__init__` was evidently intended to build (source
lines 38–41 with the helper that actually exists,
`__number_of_integers_needed`): `n_bits` plus `ceil(n_bits / 32)` words all
equal to `__ALL_CLEAR`.  Every state-dependent claim is settled over such
states and the states the operations reach from them. -/
def mk0 (n_bits : Nat) : BitSet :=
  ⟨n_bits, List.replicate (numberOfIntegersNeeded n_bits) ALL_CLEAR⟩

/-- `__index_bit_in_bitset(position)` (source lines 55–70):
`divmod(position, self.__INT_SIZE)`. -/
def indexBitInBitset (position : Int) : Int × Int :=
  pyDivmod position 32

/-- `__clear(idx, bit)` (source lines 72–85): bound check on `bit` against
`self.n_bits`, then `self.__bits[idx] &= ~(1 << bit)`.  The shift amount is
non-negative whenever the check passes, so `bit.toNat` is exact there. -/
def wordClear (bs : BitSet) (idx bit : Int) : Except PyError Unit × BitSet :=
  if bit < 0 ∨ bit > (bs.n_bits : Int) then (.error .valueError, bs)
  else match pyIdx bs.bits.length idx with
    | none => (.error .indexError, bs)
    | some j =>
      (.ok (), { bs with bits := bs.bits.set j (pyAndNot (bs.bits.getD j 0) (1 <<< bit.toNat)) })

/-- `__set(idx, bit)` (source lines 87–101): bound check, then
`self.__bits[idx] |= (1 << bit)`. -/
def wordSet (bs : BitSet) (idx bit : Int) : Except PyError Unit × BitSet :=
  if bit < 0 ∨ bit > (bs.n_bits : Int) then (.error .valueError, bs)
  else match pyIdx bs.bits.length idx with
    | none => (.error .indexError, bs)
    | some j =>
      (.ok (), { bs with bits := bs.bits.set j (bs.bits.getD j 0 ||| (1 <<< bit.toNat)) })

/-- `__flip(idx, bit)` (source lines 103–118): bound check, then
`self.__bits[idx] ^= (1 << bit)`. -/
def wordFlip (bs : BitSet) (idx bit : Int) : Except PyError Unit × BitSet :=
  if bit < 0 ∨ bit > (bs.n_bits : Int) then (.error .valueError, bs)
  else match pyIdx bs.bits.length idx with
    | none => (.error .indexError, bs)
    | some j =>
      (.ok (), { bs with bits := bs.bits.set j (bs.bits.getD j 0 ^^^ (1 <<< bit.toNat)) })

/-- `__get(idx, bit)` (source lines 120–134): bound check, then
`int(self.__bits[idx] & (1 << bit) > 0)`.  Read-only. -/
def wordGet (bs : BitSet) (idx bit : Int) : Except PyError Nat :=
  if bit < 0 ∨ bit > (bs.n_bits : Int) then .error .valueError
  else match pyIdx bs.bits.length idx with
    | none => .error .indexError
    | some j => .ok (if 0 < bs.bits.getD j 0 &&& (1 <<< bit.toNat) then 1 else 0)

/-- `set(position, value)` (source lines 136–162).  `position == -1` writes
`__ALL_SET` (when `value == 1`) or `__ALL_CLEAR` (any other value) into every
word; otherwise the position is split by `divmod`, the loose bound check
`bit < 0 or bit > self.n_bits` runs, and the call delegates to `__set` or
`__clear`. -/
def set (bs : BitSet) (position value : Int) : Except PyError Unit × BitSet :=
  if position = -1 then
    let mask := if value = 1 then ALL_SET else ALL_CLEAR
    (.ok (), { bs with bits := bs.bits.map (fun _ => mask) })
  else
    let p := indexBitInBitset position
    if p.2 < 0 ∨ p.2 > (bs.n_bits : Int) then (.error .valueError, bs)
    else if value = 1 then bs.wordSet p.1 p.2 else bs.wordClear p.1 p.2

/-- `reset(position)` (source lines 164–175): `self.set(position, value=0)`. -/
def reset (bs : BitSet) (position : Int) : Except PyError Unit × BitSet :=
  bs.set position 0

/-- `__flip_all()` (source lines 177–182): `self.__bits[i] ^= __ALL_SET` for
every word index `i`. -/
def flipAll (bs : BitSet) : BitSet :=
  { bs with bits := bs.bits.map (fun w => w ^^^ ALL_SET) }

/-- `flip(position)` (source lines 184–203). -/
def flip (bs : BitSet) (position : Int) : Except PyError Unit × BitSet :=
  if position = -1 then (.ok (), bs.flipAll)
  else
    let p := indexBitInBitset position
    if p.2 < 0 ∨ p.2 > (bs.n_bits : Int) then (.error .valueError, bs)
    else bs.wordFlip p.1 p.2

/-- `__getitem__(position)` (source lines 205–210).  Read-only. -/
def getItem (bs : BitSet) (position : Int) : Except PyError Nat :=
  let p := indexBitInBitset position
  if p.2 < 0 ∨ p.2 > (bs.n_bits : Int) then .error .valueError
  else bs.wordGet p.1 p.2

/-- The loop of `__int_to_bitstring` (source lines 226–231), iterating
`i = 0, 1, ...` with `fuel` iterations left out of the 32 of
`range(0, self.__INT_SIZE)`: break once `idx == len(self.__bits) - 1` and
`i >= self.n_bits % 32`, otherwise append `str(self.__get(idx, i))` and
continue. -/
def intToBitstringGo (bs : BitSet) (idx : Nat) : Nat → Nat → Except PyError String
  | _, 0 => .ok ""
  | i, fuel + 1 =>
    if idx = bs.bits.length - 1 ∧ bs.n_bits % 32 ≤ i then .ok ""
    else match bs.wordGet (idx : Int) (i : Int) with
      | .error e => .error e
      | .ok b => (intToBitstringGo bs idx (i + 1) fuel).map (fun rest => toString b ++ rest)

/-- `__int_to_bitstring(idx)` (source lines 212–233): run the loop, then
return `bitstring[:self.n_bits]`. -/
def intToBitstring (bs : BitSet) (idx : Nat) : Except PyError String :=
  (intToBitstringGo bs idx 0 32).map (fun s => s.take bs.n_bits)

/-- The loop of `__str__` over `i in range(len(self.__bits))` with `fuel`
iterations left, concatenating `__int_to_bitstring(i)`. -/
def renderGo (bs : BitSet) : Nat → Nat → Except PyError String
  | _, 0 => .ok ""
  | i, fuel + 1 =>
    match bs.intToBitstring i with
    | .error e => .error e
    | .ok s => (renderGo bs (i + 1) fuel).map (fun rest => s ++ rest)

/-- `__str__()` (source lines 235–241). -/
def render (bs : BitSet) : Except PyError String :=
  renderGo bs 0 bs.bits.length

/-- The documented data-model invariant: `len(__bits)` equals
`ceil(n_bits / 32)`.  It holds for the intended construction `mk0` and is
preserved by every operation (they only `List.set` or `List.map` the word
list); the state-dependent claims are proved for every state satisfying it,
which includes every reachable state. -/
def Inv (bs : BitSet) : Prop :=
  bs.bits.length = numberOfIntegersNeeded bs.n_bits

instance (bs : BitSet) : Decidable bs.Inv := by
  unfold Inv; infer_instance

end BitSet

deriving instance DecidableEq for Except

/-! ## Claim theorems: bound checking and rendering (concrete evaluations)

The loose bound check `bit < 0 or bit > self.n_bits` compares the *offset*
`position % 32` (never the position itself) against the capacity, so
out-of-range positions whose offset is small slip through; `__getitem__` has
no sentinel case, so `position = -1` reaches `divmod` and Python's negative
list indexing.  The theorems below evaluate the translated code at the
witnessing inputs. -/

/-- C1: the claim says every per-bit operation fails with `OutOfRange`
exactly when the concrete position is outside `[0, capacity)`, and in
particular `get(capacity)`, `get(-1)` and `set(capacity, 1)` all fail.  The
code refutes this: on a fresh capacity-7 bitset, `get(7)` succeeds and
returns the padding bit 0, and `set(7, 1)` succeeds and writes the padding
bit (word becomes 128 = 2^7); on a fresh capacity-31 bitset, `get(-1)`
succeeds via Python negative indexing and returns bit 31 of the last word. -/
theorem C1_loose_bound_check_admits_out_of_range :
    (BitSet.mk0 7).getItem 7 = .ok 0 ∧
    (BitSet.mk0 31).getItem (-1) = .ok 0 ∧
    (BitSet.mk0 7).set 7 1 = (.ok (), ⟨7, [128]⟩) :=
  ⟨rfl, rfl, rfl⟩

/-- C2: the claim says `new(n)` succeeds for every non-negative `n`.  The
constructor instead calls the undefined method `__idx_of_idxs_needed` and so
raises `AttributeError` for every argument; the state it was intended to
build (via the helper `__number_of_integers_needed` that does exist) does
satisfy the rest of the claim at `n = 7`: one zero word, every bit in
`[0, 7)` reading 0, and rendering to seven zero characters. -/
theorem C2_construction_always_raises :
    BitSet.init 7 = .error .attributeError ∧
    BitSet.mk0 7 = ⟨7, [0]⟩ ∧
    (BitSet.mk0 7).render = .ok "0000000" ∧
    (∀ p : Fin 7, (BitSet.mk0 7).getItem ((p : Nat) : Int) = .ok 0) :=
  ⟨rfl, rfl, rfl, by decide⟩

set_option maxRecDepth 10000

/-- C3: the claim says rendering always produces exactly `capacity`
characters, including when the capacity is an exact multiple of the 32-bit
word width.  The code refutes the exact-multiple case: the loop of
`__int_to_bitstring` breaks immediately on the last word when
`n_bits % 32 == 0`, so a capacity-32 bitset renders as the empty string and
a capacity-64 bitset renders as only 32 characters, while the non-multiple
capacity 7 renders correctly. -/
theorem C3_render_drops_last_word_at_multiples_of_32 :
    (BitSet.mk0 32).render = .ok "" ∧
    (BitSet.mk0 64).render = .ok "00000000000000000000000000000000" ∧
    (BitSet.mk0 7).render = .ok "0000000" :=
  ⟨rfl, rfl, rfl⟩

/-- C4: the claim says padding bits are never observable through the public
interface, in particular not through `get` on any position.  The code
refutes this: on a capacity-7 bitset, `flip(-1)` sets the 25 padding bits of
the single word, and `get(7)` — accepted by the loose bound check — then
returns 1, the value of a padding bit. -/
theorem C4_padding_bit_observable_through_get :
    ((BitSet.mk0 7).flip (-1)).1 = .ok () ∧
    ((BitSet.mk0 7).flip (-1)).2.getItem 7 = .ok 1 :=
  ⟨rfl, rfl⟩

/-! ## Helper lemmas: how the operations act at a valid position

For a natural position `q < n_bits`, `divmod` yields the word index `q / 32`
and offset `q % 32`; the offset always passes the bound check (it is at most
`q`, hence below the capacity), and under the length invariant the word index
is inside the list. -/

namespace BitSet

lemma indexBit_natCast (q : Nat) :
    indexBitInBitset (q : Int) = (((q / 32 : Nat) : Int), ((q % 32 : Nat) : Int)) := rfl

lemma ALL_SET_eq : ALL_SET = 2 ^ 32 - 1 := rfl

lemma Inv_idx_lt {bs : BitSet} (h : bs.Inv) {q : Nat} (hq : q < bs.n_bits) :
    q / 32 < bs.bits.length := by
  unfold Inv numberOfIntegersNeeded at h
  omega

lemma pyIdx_natCast {len : Nat} (q : Nat) (h : q < len) : pyIdx len (q : Int) = some q := by
  simp only [pyIdx]
  rw [if_neg (show ¬((q : Int) < 0) by omega)]
  rw [if_pos (show (0 : Int) ≤ (q : Int) ∧ (q : Int) < (len : Int) by omega)]
  simp

lemma pos_and_shift (x b : Nat) : (0 < x &&& (1 <<< b)) ↔ x.testBit b := by
  rw [Nat.one_shiftLeft, Nat.and_two_pow]
  cases hx : x.testBit b <;> simp [Nat.two_pow_pos]

lemma getItem_valid (bs : BitSet) (h : bs.Inv) (q : Nat) (hq : q < bs.n_bits) :
    bs.getItem (q : Int) =
      .ok (if (bs.bits.getD (q / 32) 0).testBit (q % 32) then 1 else 0) := by
  have hidx := Inv_idx_lt h hq
  have hchk : ¬(((q % 32 : Nat) : Int) < 0 ∨ ((q % 32 : Nat) : Int) > (bs.n_bits : Int)) := by
    omega
  simp only [getItem, wordGet, indexBit_natCast]
  rw [if_neg hchk, if_neg hchk, pyIdx_natCast _ hidx]
  simp only [Int.toNat_ofNat, pos_and_shift]

end BitSet

namespace BitSet

lemma set_valid_one (bs : BitSet) (h : bs.Inv) (p : Nat) (hp : p < bs.n_bits) :
    bs.set (p : Int) 1 =
      (.ok (), { bs with bits := bs.bits.set (p / 32) (bs.bits.getD (p / 32) 0 ||| (1 <<< (p % 32))) }) := by
  have hidx := Inv_idx_lt h hp
  have hchk : ¬(((p % 32 : Nat) : Int) < 0 ∨ ((p % 32 : Nat) : Int) > (bs.n_bits : Int)) := by
    omega
  have hne : ((p : Nat) : Int) ≠ -1 := by omega
  simp only [set, indexBit_natCast]
  rw [if_neg hne, if_neg hchk]
  simp only [if_true]
  simp only [wordSet]
  rw [if_neg hchk, pyIdx_natCast _ hidx]
  simp [show (((p : Nat) : Int) % 32).toNat = p % 32 from by omega]

lemma set_valid_clear (bs : BitSet) (h : bs.Inv) (p : Nat) (hp : p < bs.n_bits)
    (v : Int) (hv : v ≠ 1) :
    bs.set (p : Int) v =
      (.ok (), { bs with bits := bs.bits.set (p / 32) (pyAndNot (bs.bits.getD (p / 32) 0) (1 <<< (p % 32))) }) := by
  have hidx := Inv_idx_lt h hp
  have hchk : ¬(((p % 32 : Nat) : Int) < 0 ∨ ((p % 32 : Nat) : Int) > (bs.n_bits : Int)) := by
    omega
  have hne : ((p : Nat) : Int) ≠ -1 := by omega
  simp only [set, indexBit_natCast]
  rw [if_neg hne, if_neg hchk, if_neg hv]
  simp only [wordClear]
  rw [if_neg hchk, pyIdx_natCast _ hidx]
  simp [show (((p : Nat) : Int) % 32).toNat = p % 32 from by omega]

lemma flip_valid (bs : BitSet) (h : bs.Inv) (p : Nat) (hp : p < bs.n_bits) :
    bs.flip (p : Int) =
      (.ok (), { bs with bits := bs.bits.set (p / 32) (bs.bits.getD (p / 32) 0 ^^^ (1 <<< (p % 32))) }) := by
  have hidx := Inv_idx_lt h hp
  have hchk : ¬(((p % 32 : Nat) : Int) < 0 ∨ ((p % 32 : Nat) : Int) > (bs.n_bits : Int)) := by
    omega
  have hne : ((p : Nat) : Int) ≠ -1 := by omega
  simp only [flip, wordFlip, indexBit_natCast]
  rw [if_neg hne, if_neg hchk, if_neg hchk, pyIdx_natCast _ hidx]
  simp [show (((p : Nat) : Int) % 32).toNat = p % 32 from by omega]

lemma testBit_or_shift (w b i : Nat) :
    (w ||| (1 <<< b)).testBit i = (w.testBit i || decide (b = i)) := by
  simp [Nat.one_shiftLeft, Nat.testBit_two_pow]

lemma testBit_andNot_shift (w b i : Nat) :
    (pyAndNot w (1 <<< b)).testBit i = (w.testBit i && !decide (b = i)) := by
  simp only [pyAndNot, Nat.testBit_xor, Nat.testBit_and, Nat.one_shiftLeft,
    Nat.testBit_two_pow]
  cases hw : w.testBit i <;> cases hd : decide (b = i) <;> simp

lemma testBit_xor_shift (w b i : Nat) :
    (w ^^^ (1 <<< b)).testBit i = ((w.testBit i).xor (decide (b = i))) := by
  simp [Nat.one_shiftLeft, Nat.testBit_two_pow, Bool.xor]

lemma testBit_xor_ALL_SET (w b : Nat) (hb : b < 32) :
    (w ^^^ ALL_SET).testBit b = !w.testBit b := by
  rw [ALL_SET_eq, Nat.testBit_xor, Nat.testBit_two_pow_sub_one]
  simp [hb]

lemma getD_set_self {l : List Nat} {j : Nat} (h : j < l.length) (w : Nat) :
    (l.set j w).getD j 0 = w := by
  simp [List.getD_eq_getElem?_getD, List.getElem?_set_self h]

lemma getD_set_ne {l : List Nat} {i j : Nat} (h : i ≠ j) (w : Nat) :
    (l.set i w).getD j 0 = l.getD j 0 := by
  simp [List.getD_eq_getElem?_getD, List.getElem?_set_ne h]

end BitSet

namespace BitSet

lemma Inv_setWord {bs : BitSet} (h : bs.Inv) (j : Nat) (w : Nat) :
    ({ bs with bits := bs.bits.set j w } : BitSet).Inv := by
  unfold Inv at h ⊢
  simpa using h

lemma Inv_mapWords {bs : BitSet} (h : bs.Inv) (f : Nat → Nat) :
    ({ bs with bits := bs.bits.map f } : BitSet).Inv := by
  unfold Inv at h ⊢
  simpa using h

lemma getD_map_lt {l : List Nat} {j : Nat} (h : j < l.length) (f : Nat → Nat) :
    (l.map f).getD j 0 = f (l.getD j 0) := by
  simp [List.getD_eq_getElem?_getD, List.getElem?_eq_getElem h]

end BitSet

open BitSet in
/-- C5: over any state satisfying the length invariant (in particular any
reachable state), for a valid position `p < capacity` and a value
`v ∈ {0, 1}`, `set(p, v)` succeeds, a subsequent `get(p)` returns `v`, and
`get(q)` is unchanged at every other valid position `q ≠ p`. -/
theorem C5_set_get_roundtrip (bs : BitSet) (h : bs.Inv) (p : Nat) (hp : p < bs.n_bits)
    (v : Int) (hv : v = 0 ∨ v = 1) :
    (bs.set (p : Int) v).1 = .ok () ∧
    (bs.set (p : Int) v).2.getItem (p : Int) = .ok v.toNat ∧
    (∀ q : Nat, q < bs.n_bits → q ≠ p →
      (bs.set (p : Int) v).2.getItem (q : Int) = bs.getItem (q : Int)) := by
  have hidx := Inv_idx_lt h hp
  rcases hv with hv | hv <;> subst hv
  · rw [set_valid_clear bs h p hp 0 (by decide)]
    dsimp only
    refine ⟨rfl, ?_, ?_⟩
    · rw [getItem_valid _ (Inv_setWord h _ _) p hp]
      dsimp only
      rw [getD_set_self hidx, testBit_andNot_shift]
      simp
    · intro q hq hqp
      rw [getItem_valid _ (Inv_setWord h _ _) q hq, getItem_valid bs h q hq]
      dsimp only
      by_cases hj : p / 32 = q / 32
      · rw [← hj, getD_set_self hidx, testBit_andNot_shift]
        have hb : ¬(p % 32 = q % 32) := by omega
        rw [hj]
        simp [hb]
      · rw [getD_set_ne hj]
  · rw [set_valid_one bs h p hp]
    dsimp only
    refine ⟨rfl, ?_, ?_⟩
    · rw [getItem_valid _ (Inv_setWord h _ _) p hp]
      dsimp only
      rw [getD_set_self hidx, testBit_or_shift]
      simp
    · intro q hq hqp
      rw [getItem_valid _ (Inv_setWord h _ _) q hq, getItem_valid bs h q hq]
      dsimp only
      by_cases hj : p / 32 = q / 32
      · rw [← hj, getD_set_self hidx, testBit_or_shift]
        have hb : ¬(p % 32 = q % 32) := by omega
        rw [hj]
        simp [hb]
      · rw [getD_set_ne hj]

/-- C5 witness: on the capacity-3 bitset with one zero word, `set(1, 1)`
succeeds and `get(1)` then returns 1. -/
theorem C5_set_get_roundtrip_witness :
    ((⟨3, [0]⟩ : BitSet).set 1 1).2.getItem 1 = .ok 1 :=
  (C5_set_get_roundtrip ⟨3, [0]⟩ (by decide) 1 (by decide) 1 (Or.inr rfl)).2.1

open BitSet in
/-- C6: over any state satisfying the length invariant, `flip(-1)` (the ALL
sentinel) succeeds, XORs every stored word with the all-ones mask
`(1 << 32) - 1`, and afterwards `get(p)` returns `1 -` the value `get(p)`
returned before, for every valid position `p`. -/
theorem C6_flip_all_complements (bs : BitSet) (h : bs.Inv) :
    (bs.flip (-1)).1 = .ok () ∧
    (bs.flip (-1)).2.bits = bs.bits.map (fun w => w ^^^ ((1 <<< 32) - 1)) ∧
    (∀ p : Nat, p < bs.n_bits → ∀ v : Nat, bs.getItem (p : Int) = .ok v →
      (bs.flip (-1)).2.getItem (p : Int) = .ok (1 - v)) := by
  refine ⟨rfl, rfl, ?_⟩
  intro p hp v hv
  have hidx := Inv_idx_lt h hp
  have hflip : (bs.flip (-1)).2 = bs.flipAll := rfl
  rw [hflip]
  dsimp only [flipAll]
  rw [getItem_valid _ (Inv_mapWords h _) p hp]
  rw [getItem_valid bs h p hp] at hv
  dsimp only
  rw [getD_map_lt hidx, testBit_xor_ALL_SET _ _ (by omega)]
  cases htb : (bs.bits.getD (p / 32) 0).testBit (p % 32) <;> rw [htb] at hv <;>
    simp at hv ⊢ <;> omega

/-- C6 witness: on the capacity-3 bitset whose single word is 5 (bits 0 and 2
set), `get(0)` returns 1 before `flip(-1)` and 0 after. -/
theorem C6_flip_all_complements_witness :
    ((⟨3, [5]⟩ : BitSet).flip (-1)).2.getItem 0 = .ok 0 :=
  (C6_flip_all_complements ⟨3, [5]⟩ (by decide)).2.2 0 (by decide) 1 rfl

open BitSet in
/-- C7: over any state satisfying the length invariant and any valid
position `p`, two successive `flip(p)` calls succeed and restore a state in
which every valid position reads the same value as before the two flips. -/
theorem C7_flip_twice_restores (bs : BitSet) (h : bs.Inv) (p : Nat) (hp : p < bs.n_bits) :
    (bs.flip (p : Int)).1 = .ok () ∧
    ((bs.flip (p : Int)).2.flip (p : Int)).1 = .ok () ∧
    (∀ q : Nat, q < bs.n_bits →
      ((bs.flip (p : Int)).2.flip (p : Int)).2.getItem (q : Int) = bs.getItem (q : Int)) := by
  have hidx := Inv_idx_lt h hp
  rw [flip_valid bs h p hp]
  dsimp only
  rw [flip_valid _ (Inv_setWord h _ _) p hp]
  dsimp only
  rw [getD_set_self hidx, List.set_set]
  rw [Nat.xor_assoc, Nat.xor_self, Nat.xor_zero]
  refine ⟨rfl, rfl, ?_⟩
  intro q hq
  rw [getItem_valid _ (Inv_setWord h _ _) q hq, getItem_valid bs h q hq]
  dsimp only
  by_cases hj : p / 32 = q / 32
  · rw [← hj, getD_set_self hidx]
  · rw [getD_set_ne hj]

/-- C7 witness: on the capacity-3 bitset with one zero word, flipping bit 1
twice leaves `get(1)` at 0. -/
theorem C7_flip_twice_restores_witness :
    (((⟨3, [0]⟩ : BitSet).flip 1).2.flip 1).2.getItem 1 = (⟨3, [0]⟩ : BitSet).getItem 1 :=
  (C7_flip_twice_restores ⟨3, [0]⟩ (by decide) 1 (by decide)).2.2 1 (by decide)

namespace BitSet

lemma wordSet_snd_of_error (bs : BitSet) (idx bit : Int) (e : PyError)
    (h : (bs.wordSet idx bit).1 = .error e) : (bs.wordSet idx bit).2 = bs := by
  by_cases hb : bit < 0 ∨ bit > (bs.n_bits : Int)
  · simp [wordSet, hb]
  · cases hj : pyIdx bs.bits.length idx with
    | none => simp [wordSet, hb, hj]
    | some j => simp [wordSet, hb, hj] at h

lemma wordClear_snd_of_error (bs : BitSet) (idx bit : Int) (e : PyError)
    (h : (bs.wordClear idx bit).1 = .error e) : (bs.wordClear idx bit).2 = bs := by
  by_cases hb : bit < 0 ∨ bit > (bs.n_bits : Int)
  · simp [wordClear, hb]
  · cases hj : pyIdx bs.bits.length idx with
    | none => simp [wordClear, hb, hj]
    | some j => simp [wordClear, hb, hj] at h

lemma wordFlip_snd_of_error (bs : BitSet) (idx bit : Int) (e : PyError)
    (h : (bs.wordFlip idx bit).1 = .error e) : (bs.wordFlip idx bit).2 = bs := by
  by_cases hb : bit < 0 ∨ bit > (bs.n_bits : Int)
  · simp [wordFlip, hb]
  · cases hj : pyIdx bs.bits.length idx with
    | none => simp [wordFlip, hb, hj]
    | some j => simp [wordFlip, hb, hj] at h

lemma set_snd_of_error (bs : BitSet) (position v : Int) (e : PyError)
    (h : (bs.set position v).1 = .error e) : (bs.set position v).2 = bs := by
  by_cases hpos : position = -1
  · simp [set, hpos] at h
  · by_cases hchk : (indexBitInBitset position).2 < 0 ∨
        (indexBitInBitset position).2 > (bs.n_bits : Int)
    · simp [set, hpos, hchk]
    · by_cases hv : v = 1
      · simp only [set] at h ⊢
        simp only [if_neg hpos, if_neg hchk, if_pos hv] at h ⊢
        exact wordSet_snd_of_error _ _ _ e h
      · simp only [set] at h ⊢
        simp only [if_neg hpos, if_neg hchk, if_neg hv] at h ⊢
        exact wordClear_snd_of_error _ _ _ e h

lemma flip_snd_of_error (bs : BitSet) (position : Int) (e : PyError)
    (h : (bs.flip position).1 = .error e) : (bs.flip position).2 = bs := by
  by_cases hpos : position = -1
  · simp [flip, hpos] at h
  · by_cases hchk : (indexBitInBitset position).2 < 0 ∨
        (indexBitInBitset position).2 > (bs.n_bits : Int)
    · simp [flip, hpos, hchk]
    · simp only [flip] at h ⊢
      simp only [if_neg hpos, if_neg hchk] at h ⊢
      exact wordFlip_snd_of_error _ _ _ e h

end BitSet

open BitSet in
/-- C8: whenever `set`, `reset` or `flip` with a concrete position raises the
`OutOfRange` error (`ValueError`), the object is returned exactly as it was:
the bound check precedes the word write, so a failing call performs no
partial mutation.  (`__getitem__`/`__get` only read the word array — they are
modelled as state-free functions — so a failing `get` trivially mutates
nothing.) -/
theorem C8_no_partial_mutation_on_out_of_range (bs : BitSet) (position v : Int) :
    ((bs.set position v).1 = .error .valueError → (bs.set position v).2 = bs) ∧
    ((bs.reset position).1 = .error .valueError → (bs.reset position).2 = bs) ∧
    ((bs.flip position).1 = .error .valueError → (bs.flip position).2 = bs) :=
  ⟨set_snd_of_error bs position v .valueError,
   set_snd_of_error bs position 0 .valueError,
   flip_snd_of_error bs position .valueError⟩

/-- C8 witness: `set(40, 1)` on a capacity-3 bitset fails the bound check
(offset 8 exceeds capacity 3) and leaves the word array unchanged. -/
theorem C8_no_partial_mutation_on_out_of_range_witness :
    ((⟨3, [0]⟩ : BitSet).set 40 1).2 = ⟨3, [0]⟩ :=
  (C8_no_partial_mutation_on_out_of_range ⟨3, [0]⟩ 40 1).1 rfl

open BitSet in
/-- C9: `reset(position)` delegates unconditionally to `set(position, 0)`:
for every state and every position argument (concrete or the ALL sentinel)
the outcome — both the success-or-error result and the resulting state — is
identical. -/
theorem C9_reset_equals_set_zero (bs : BitSet) (position : Int) :
    bs.reset position = bs.set position 0 := rfl

open BitSet in
/-- C10: for every value `v ≠ 1`, `set(position, v)` behaves exactly like
`set(position, 0)`: the same result for every position argument; with the
ALL sentinel every word is overwritten with the all-zero pattern; and at a
concrete in-range position the addressed bit is cleared, so a subsequent
`get` there returns 0. -/
theorem C10_set_with_non_one_value_clears (bs : BitSet) (h : bs.Inv) (v : Int) (hv : v ≠ 1) :
    (∀ position : Int, bs.set position v = bs.set position 0) ∧
    (bs.set (-1) v).2.bits = bs.bits.map (fun _ => 0) ∧
    (∀ p : Nat, p < bs.n_bits →
      (bs.set (p : Int) v).1 = .ok () ∧ (bs.set (p : Int) v).2.getItem (p : Int) = .ok 0) := by
  refine ⟨?_, ?_, ?_⟩
  · intro position
    by_cases hpos : position = -1 <;> simp [BitSet.set, hpos, hv]
  · simp [BitSet.set, hv, ALL_CLEAR]
  · intro p hp
    rw [set_valid_clear bs h p hp v hv]
    dsimp only
    refine ⟨rfl, ?_⟩
    rw [getItem_valid _ (Inv_setWord h _ _) p hp]
    dsimp only
    rw [getD_set_self (Inv_idx_lt h hp), testBit_andNot_shift]
    simp

/-- C10 witness: on the capacity-3 bitset whose word is 1 (bit 0 set),
`set(0, 5)` succeeds and clears bit 0. -/
theorem C10_set_with_non_one_value_clears_witness :
    ((⟨3, [1]⟩ : BitSet).set 0 5).2.getItem 0 = .ok 0 :=
  ((C10_set_with_non_one_value_clears ⟨3, [1]⟩ (by decide) 5 (by decide)).2.2 0
    (by decide)).2
